import Mathlib

/-!
Verification of the qsv `count`, `schema` and `pseudo` commands
(src/cmd/count.rs, src/cmd/schema.rs, src/cmd/pseudo.rs).

The Rust code is shallowly embedded: CSV records become lists of field
strings, `u64`/`usize` become `Nat` with explicit `% 2 ^ 64` where wrapping
matters, fallible code returns `Except`/`Option`, and the external engines
(Polars, the stats engine, the frequency engine, grex) appear as explicit
outcome parameters where the code only branches on their success or failure.
-/

namespace Qsv

/-- A fragment of `serde_json::Value` large enough for the schema claims:
`Value::Null`, `Value::String` and integer `Value::Number`. -/
inductive JVal where
  | vNull : JVal
  | vStr : String → JVal
  | vInt : Int → JVal
deriving DecidableEq, Repr

/-- UTF-8 byte length of a string, mirroring Rust's `str::len` /
`ByteRecord` field byte lengths. -/
def byteLen (s : String) : Nat :=
  s.data.foldl (fun n c => n + c.utf8Size) 0

/-- `record.as_slice().len()`: total byte length of a record's field data,
delimiters and quotes excluded. -/
def sliceLen (r : List String) : Nat :=
  (r.map byteLen).sum

/-- Embedding of `count_input` (count.rs:135-174).  `records` is the sequence
of records the configured CSV reader yields.  With `compute_width` the first
record seeds `max_width` and fixes `record_numdelimiters` (its field count
minus 1, saturating); the loop then counts records and tracks the maximum
`as_slice` length; the returned width is `max_width + record_numdelimiters`.
On an empty input the first `read_byte_record` leaves a cleared record, so
the code still reports count 1 and width 0. -/
def count_input (records : List (List String)) (compute_width : Bool) :
    Nat × Nat :=
  if compute_width then
    match records with
    | [] => (1, 0)
    | r :: rs =>
      let max_width := rs.foldl (fun m rec => max m (sliceLen rec)) (sliceLen r)
      let record_numdelimiters := r.length - 1
      (1 + rs.length, max_width + record_numdelimiters)
  else
    (records.length, 0)

/-- Modelled from the spec's width formula (the claim's words, for
comparison with `count_input`): the maximum over all rows of (sum of that
row's field byte lengths plus that row's delimiter count). -/
def width_spec (records : List (List String)) : Nat :=
  (records.map (fun r => sliceLen r + (r.length - 1))).foldl max 0

lemma foldl_max_shift (l : List Nat) : ∀ a b : Nat,
    l.foldl max (max a b) = max a (l.foldl max b) := by
  induction l with
  | nil => intro a b; rfl
  | cons x xs ih =>
    intro a b
    simp only [List.foldl_cons]
    rw [max_assoc, ih]

lemma foldl_max_zero (l : List Nat) (a : Nat) :
    l.foldl max a = max a (l.foldl max 0) := by
  have h := foldl_max_shift l a 0
  simpa using h

/-- C1 counterexample: when the widest record is not the first one and the
records have different field counts, `count_input` reports
(max field-data length) + (FIRST record's delimiter count), which differs
from the claim's per-row maximum.  For `f,g,h,i` then `a,bb,ccc` the code
reports max(4,6) + 3 = 9 while the claimed formula gives max(7,8) = 8. -/
theorem count_width_spec_counterexample :
    (count_input [["f", "g", "h", "i"], ["a", "bb", "ccc"]] true).2
      ≠ width_spec [["f", "g", "h", "i"], ["a", "bb", "ccc"]] := by
  decide

/-- C1 (amended): for every nonempty record sequence the reported width is
(the maximum over all records of the sum of field byte lengths) plus (the
FIRST record's field count minus 1, the code's `record_numdelimiters`);
the per-row-delimiter formula of the claim is only guaranteed when the first
record fixes the delimiter count, as in the spec's 3-row example
`a,bb,ccc` / `d,ee` / `f,g,h,i`, where both formulas report 8. -/
theorem count_width_reported (r : List String) (rs : List (List String)) :
    (count_input (r :: rs) true).2
      = ((r :: rs).map sliceLen).foldl max 0 + (r.length - 1)
    ∧ (count_input [["a", "bb", "ccc"], ["d", "ee"], ["f", "g", "h", "i"]] true).2
      = width_spec [["a", "bb", "ccc"], ["d", "ee"], ["f", "g", "h", "i"]] := by
  constructor
  · simp only [count_input, List.map_cons, List.foldl_cons, List.foldl_map,
      Nat.zero_max, ite_true]
  · decide

/-! ### The accelerated (Polars) counting path, count.rs:177-293 -/

/-- The slice of `Config` that `polars_count_input` consults: whether the
input is stdin, the `--no-headers` flag, the comment prefix and the
delimiter byte (`b','` = 44). -/
structure PolarsConf where
  is_stdin : Bool
  no_headers : Bool
  comment : Option Char
  delimiter : Nat
deriving DecidableEq, Repr

/-- Outcomes of the four fallible Polars engine steps that
`polars_count_input` branches on: `LazyCsvReader::finish` (plan build),
`SQLContext::execute` (query dispatch), `LazyFrame::collect` (execution),
and `collected["len"].u32()` followed by `.get(0)` (`Except.ok none` models
`u32()` succeeding but `get(0)` returning `None`; `Except.error` models
`u32()` failing). -/
structure PolarsEngine where
  finish : Except String Unit
  execute : Except String Unit
  collect : Except String Unit
  len_u32 : Except String (Option Nat)
deriving Repr

/-- Result of the embedded `polars_count_input`: the returned
`CliResult` value, whether the stdin temp file was created (and kept via
`keep()`), and whether `std::fs::remove_file` ran on it before returning. -/
structure PolarsResult where
  result : Except String (Nat × Nat)
  temp_created : Bool
  temp_removed : Bool
deriving Repr

/-- count.rs:222 — the direct `read_csv` SQL path is taken when there is no
comment prefix, the delimiter is the default `b','` and `--low-memory` is
not set. -/
def polars_direct (conf : PolarsConf) (low_memory : Bool) : Bool :=
  conf.comment == none && conf.delimiter == 44 && !low_memory

/-- Tail of `polars_count_input` from `ctx.execute` (count.rs:261) on:
an `execute` error falls back to `count_input` and returns early (no temp
cleanup); a `collect` error is propagated by `?`; `u32()` failing falls back
to `count_input` but CONTINUES (temp removed, `--no-headers` +1 applied);
`get(0)` returning `None` is propagated as an error by `ok_or(..)?`.
`streaming` is the outcome of the `count_input(conf, false)` fallback. -/
def polars_execute_tail (conf : PolarsConf) (eng : PolarsEngine)
    (streaming : Except String Nat) : PolarsResult :=
  let created := conf.is_stdin
  match eng.execute with
  | Except.error _ =>
    match streaming with
    | Except.ok c => ⟨Except.ok (c, 0), created, false⟩
    | Except.error e => ⟨Except.error e, created, false⟩
  | Except.ok _ =>
    match eng.collect with
    | Except.error e => ⟨Except.error e, created, false⟩
    | Except.ok _ =>
      let after_count : Except String Nat :=
        match eng.len_u32 with
        | Except.ok (some c) => Except.ok c
        | Except.ok none => Except.error "polars error: cannot get count"
        | Except.error _ =>
          match streaming with
          | Except.ok c => Except.ok c
          | Except.error e => Except.error e
      match after_count with
      | Except.error e => ⟨Except.error e, created, false⟩
      | Except.ok c =>
        ⟨Except.ok ((if conf.no_headers then c + 1 else c), 0), created,
          conf.is_stdin⟩

/-- Embedding of `polars_count_input` (count.rs:177-293).  For stdin the
input is copied into a kept temp file first.  On the non-direct path a
`LazyCsvReader::finish` error falls back to `count_input` and returns early;
otherwise the SQL count query runs via `polars_execute_tail`.  The temp file
is removed only on the one return that reaches count.rs:282. -/
def polars_count_input (conf : PolarsConf) (low_memory : Bool)
    (eng : PolarsEngine) (streaming : Except String Nat) : PolarsResult :=
  let created := conf.is_stdin
  if polars_direct conf low_memory then
    polars_execute_tail conf eng streaming
  else
    match eng.finish with
    | Except.error _ =>
      match streaming with
      | Except.ok c => ⟨Except.ok (c, 0), created, false⟩
      | Except.error e => ⟨Except.error e, created, false⟩
    | Except.ok _ => polars_execute_tail conf eng streaming

/-- C3 counterexample: a failure of `LazyFrame::collect` — query-execution
time — is propagated by the `?` at count.rs:270 and surfaces as an error
result, so not every engine failure falls back to the streaming scan. -/
theorem polars_collect_error_surfaced :
    (polars_count_input ⟨false, false, none, 44⟩ false
        ⟨Except.ok (), Except.ok (), Except.error "worker panic",
          Except.ok (some 7)⟩
        (Except.ok 7)).result
      = Except.error "worker panic" := by
  rfl

/-- C3 (amended): failures at plan build (`LazyCsvReader::finish`) and at
query dispatch (`SQLContext::execute`) fall back to the streaming scan
(when that scan itself succeeds), but a failure of `LazyFrame::collect`
is surfaced to the caller as an error result. -/
theorem polars_fallback_and_surface (conf : PolarsConf) (lm : Bool)
    (eng : PolarsEngine) (s : Except String Nat) (c : Nat) (e : String)
    (hs : s = Except.ok c) :
    (polars_direct conf lm = false → eng.finish = Except.error e →
      (polars_count_input conf lm eng s).result = Except.ok (c, 0))
    ∧ ((polars_direct conf lm = true ∨ eng.finish = Except.ok ()) →
        eng.execute = Except.error e →
        (polars_count_input conf lm eng s).result = Except.ok (c, 0))
    ∧ ((polars_direct conf lm = true ∨ eng.finish = Except.ok ()) →
        eng.execute = Except.ok () → eng.collect = Except.error e →
        (polars_count_input conf lm eng s).result = Except.error e) := by
  subst hs
  refine ⟨?_, ?_, ?_⟩
  · intro hdir hfin
    simp only [polars_count_input, hdir, hfin, ite_false, Bool.false_eq_true]
  · intro hdir hex
    rcases hdir with hdir | hfin
    · simp only [polars_count_input, hdir, ite_true, polars_execute_tail, hex]
    · cases hdirb : polars_direct conf lm
      · simp only [polars_count_input, hdirb, ite_false, Bool.false_eq_true,
          hfin, polars_execute_tail, hex]
      · simp only [polars_count_input, hdirb, ite_true, polars_execute_tail,
          hex]
  · intro hdir hex hcol
    rcases hdir with hdir | hfin
    · simp only [polars_count_input, hdir, ite_true, polars_execute_tail,
        hex, hcol]
    · cases hdirb : polars_direct conf lm
      · simp only [polars_count_input, hdirb, ite_false, Bool.false_eq_true,
          hfin, polars_execute_tail, hex, hcol]
      · simp only [polars_count_input, hdirb, ite_true, polars_execute_tail,
          hex, hcol]

/-- A concrete non-stdin, default-delimiter configuration. -/
def confDirect : PolarsConf := ⟨false, false, none, 44⟩

/-- A concrete engine whose `collect` step fails after a successful plan
build and query dispatch. -/
def engCollectFail : PolarsEngine :=
  ⟨Except.ok (), Except.ok (), Except.error "boom", Except.ok (some 7)⟩

/-- Witness for `polars_fallback_and_surface` at `confDirect` and
`engCollectFail`. -/
theorem polars_fallback_and_surface_witness :
    (Except.ok 7 : Except String Nat) = Except.ok 7
    ∧ ((polars_direct confDirect false = false →
          engCollectFail.finish = Except.error "boom" →
          (polars_count_input confDirect false engCollectFail
            (Except.ok 7)).result = Except.ok (7, 0))
      ∧ ((polars_direct confDirect false = true
            ∨ engCollectFail.finish = Except.ok ()) →
          engCollectFail.execute = Except.error "boom" →
          (polars_count_input confDirect false engCollectFail
            (Except.ok 7)).result = Except.ok (7, 0))
      ∧ ((polars_direct confDirect false = true
            ∨ engCollectFail.finish = Except.ok ()) →
          engCollectFail.execute = Except.ok () →
          engCollectFail.collect = Except.error "boom" →
          (polars_count_input confDirect false engCollectFail
            (Except.ok 7)).result = Except.error "boom")) :=
  ⟨rfl, polars_fallback_and_surface confDirect false engCollectFail
    (Except.ok 7) 7 "boom" rfl⟩

/-- C6: when the accelerated engine path succeeds (plan built or direct
path, query dispatched, collected, and `u32()` count `c` extracted) and the
caller declared `--no-headers`, the returned count is exactly `c + 1`
(count.rs:286-292). -/
theorem polars_no_headers_plus_one (conf : PolarsConf) (lm : Bool)
    (eng : PolarsEngine) (s : Except String Nat) (c : Nat)
    (hnh : conf.no_headers = true)
    (hfin : polars_direct conf lm = true ∨ eng.finish = Except.ok ())
    (hex : eng.execute = Except.ok ()) (hcol : eng.collect = Except.ok ())
    (hlen : eng.len_u32 = Except.ok (some c)) :
    (polars_count_input conf lm eng s).result = Except.ok (c + 1, 0) := by
  have htail : (polars_execute_tail conf eng s).result
      = Except.ok (c + 1, 0) := by
    simp only [polars_execute_tail, hex, hcol, hlen, hnh, ite_true]
  rcases hfin with hdir | hfinok
  · simp only [polars_count_input, hdir, ite_true, htail]
  · cases hdirb : polars_direct conf lm
    · simp only [polars_count_input, hdirb, ite_false, Bool.false_eq_true,
        hfinok, htail]
    · simp only [polars_count_input, hdirb, ite_true, htail]

/-- A concrete no-headers configuration for the engine path. -/
def confNoHeaders : PolarsConf := ⟨false, true, none, 44⟩

/-- A concrete engine run that counts 9 records (it consumed the first of
10 data rows as a header). -/
def engCount9 : PolarsEngine :=
  ⟨Except.ok (), Except.ok (), Except.ok (), Except.ok (some 9)⟩

/-- Witness for `polars_no_headers_plus_one`: an engine count of 9 on a
10-data-row no-header file is reported as 10. -/
theorem polars_no_headers_plus_one_witness :
    confNoHeaders.no_headers = true
    ∧ (polars_direct confNoHeaders false = true
        ∨ engCount9.finish = Except.ok ())
    ∧ engCount9.execute = Except.ok ()
    ∧ engCount9.collect = Except.ok ()
    ∧ engCount9.len_u32 = Except.ok (some 9)
    ∧ (polars_count_input confNoHeaders false engCount9
        (Except.ok 0)).result = Except.ok (10, 0) :=
  ⟨rfl, Or.inl rfl, rfl, rfl, rfl,
    polars_no_headers_plus_one confNoHeaders false engCount9 (Except.ok 0) 9
      rfl (Or.inl rfl) rfl rfl rfl⟩

/-- A concrete stdin configuration. -/
def confStdin : PolarsConf := ⟨true, false, none, 44⟩

/-- A concrete engine whose plan build (`LazyCsvReader::finish`) fails. -/
def engFinishFail : PolarsEngine :=
  ⟨Except.error "cannot mmap", Except.ok (), Except.ok (),
    Except.ok (some 5)⟩

/-- C9 evaluation at the failing input: reading stdin with `--low-memory`
(non-direct path), the plan build fails, the function falls back to the
streaming count and returns `Ok` at count.rs:240 WITHOUT reaching the
`remove_file` call at count.rs:283 — the kept temp file holding stdin's
copy is created but never deleted on this return. -/
theorem polars_stdin_temp_leak :
    (polars_count_input confStdin true engFinishFail
        (Except.ok 5)).result = Except.ok (5, 0)
    ∧ (polars_count_input confStdin true engFinishFail
        (Except.ok 5)).temp_created = true
    ∧ (polars_count_input confStdin true engFinishFail
        (Except.ok 5)).temp_removed = false :=
  ⟨rfl, rfl, rfl⟩

/-! ### Stats cache staleness, schema.rs:437-629 -/

/-- `StatsMode` (schema.rs:122-128). -/
inductive StatsMode where
  | Schema : StatsMode
  | Frequency : StatsMode
  | FrequencyForceStats : StatsMode
  | None : StatsMode
deriving DecidableEq, Repr

/-- How `get_stats_records` obtained its profiles: the early empty return
(schema.rs:487-491), reuse of the decoded cache (schema.rs:498-515 with
`stats_bin_loaded = true`), or regeneration by spawning the stats command
(schema.rs:517-599). -/
inductive StatsOutcome where
  | earlyEmpty : StatsOutcome
  | reused : StatsOutcome
  | regenerated : StatsOutcome
deriving DecidableEq, Repr

/-- schema.rs:470-485 — the cache counts as current only when it exists and
its modification time is STRICTLY later than the input's. -/
def stats_bin_current (cacheExists : Bool) (cacheMtime inputMtime : Nat) :
    Bool :=
  cacheExists && decide (inputMtime < cacheMtime)

/-- Control-flow skeleton of `get_stats_records` (schema.rs:437-629),
tracking which of the three profile sources is taken.  Modification times
are abstracted to `Nat` instants; `decodeOk` is the outcome of
`bincode::deserialize_from` on the existing cache (schema.rs:504). -/
def get_stats_records (mode : StatsMode) (cacheExists : Bool)
    (cacheMtime inputMtime : Nat) (force decodeOk : Bool) : StatsOutcome :=
  let current := stats_bin_current cacheExists cacheMtime inputMtime
  if mode = StatsMode.None ∨ (mode = StatsMode.Frequency ∧ current = false)
  then StatsOutcome.earlyEmpty
  else if current && !force && decodeOk then StatsOutcome.reused
  else StatsOutcome.regenerated

/-- C5 counterexample: an existing cache strictly newer than the input,
with no force flag, is still REGENERATED when its decode fails
(schema.rs:509-514), so "newer timestamp and no force flag" alone does not
imply reuse. -/
theorem cache_reuse_decode_counterexample :
    ¬ ((get_stats_records StatsMode.Schema true 2 1 false false
          = StatsOutcome.reused)
        ↔ (1 < 2 ∧ false = false)) := by
  decide

/-- C5 (amended): on the schema path with an existing cache, the cache is
reused iff its mtime is strictly later than the input's, the force flag is
unset AND the cache decodes successfully; in every other case the profiles
are regenerated. -/
theorem cache_reuse_iff (cacheExists : Bool) (cM iM : Nat)
    (force decodeOk : Bool) (hex : cacheExists = true) :
    ((get_stats_records StatsMode.Schema cacheExists cM iM force decodeOk
        = StatsOutcome.reused)
      ↔ (iM < cM ∧ force = false ∧ decodeOk = true))
    ∧ (¬ (iM < cM ∧ force = false ∧ decodeOk = true) →
        get_stats_records StatsMode.Schema cacheExists cM iM force decodeOk
          = StatsOutcome.regenerated) := by
  subst hex
  unfold get_stats_records stats_bin_current
  constructor
  · by_cases hlt : iM < cM
    · cases force <;> cases decodeOk <;>
        simp [hlt]
    · cases force <;> cases decodeOk <;>
        simp [hlt]
  · intro hne
    by_cases hlt : iM < cM
    · cases force
      · cases decodeOk
        · simp [hlt]
        · exact absurd ⟨hlt, rfl, rfl⟩ hne
      · cases decodeOk <;> simp [hlt]
    · cases force <;> cases decodeOk <;> simp [hlt]

/-- Witness for `cache_reuse_iff`: fresh cache, no force, decodable. -/
theorem cache_reuse_iff_witness :
    (true : Bool) = true
    ∧ (((get_stats_records StatsMode.Schema true 5 3 false true
          = StatsOutcome.reused)
        ↔ (3 < 5 ∧ false = false ∧ true = true))
      ∧ (¬ (3 < 5 ∧ false = false ∧ true = true) →
          get_stats_records StatsMode.Schema true 5 3 false true
            = StatsOutcome.regenerated)) :=
  ⟨rfl, cache_reuse_iff true 5 3 false true rfl⟩

/-! ### Enum mining: low-cardinality column selection, schema.rs:632-667 -/

/-- Rust's `str::parse::<usize>`: an optional `+` sign followed by at least
one ASCII digit, rejecting values that do not fit in 64 bits. -/
def parse_usize (s : String) : Option Nat :=
  let cs := match s.data with
    | '+' :: rest => rest
    | l => l
  if cs ≠ [] ∧ cs.all Char.isDigit then
    let v := cs.foldl (fun n c => n * 10 + (c.toNat - 48)) 0
    if v < 2 ^ 64 then some v else none
  else none

/-- schema.rs:647-650 — the cardinality a column is credited with: the
parsed `cardinality` stats field, with a missing field or a parse failure
collapsing to 0 (`unwrap_or(0)`). -/
def col_cardinality (field : Option String) : Nat :=
  match field with
  | some s => (parse_usize s).getD 0
  | none => 0

/-- The selection loop of `build_low_cardinality_column_selector_arg`
(schema.rs:642-657): walk the per-column cardinality fields with running
0-based index `i`, keeping `i + 1` (selectors are 1-based) exactly when
`0 < cardinality ∧ cardinality ≤ threshold`. -/
def low_card_indices_aux (threshold : Nat) :
    List (Option String) → Nat → List Nat
  | [], _ => []
  | c :: rest, i =>
    if 0 < col_cardinality c ∧ col_cardinality c ≤ threshold then
      (i + 1) :: low_card_indices_aux threshold rest (i + 1)
    else
      low_card_indices_aux threshold rest (i + 1)

/-- The 1-based indices of the low-cardinality columns. -/
def low_cardinality_column_indices (threshold : Nat)
    (cards : List (Option String)) : List Nat :=
  low_card_indices_aux threshold cards 0

/-- Embedding of `build_low_cardinality_column_selector_arg`
(schema.rs:632-667): the collected 1-based indices joined with `,`. -/
def build_low_cardinality_column_selector_arg (threshold : Nat)
    (cards : List (Option String)) : String :=
  String.intercalate ","
    ((low_cardinality_column_indices threshold cards).map toString)

lemma mem_low_card_aux (threshold : Nat) :
    ∀ (cards : List (Option String)) (b j : Nat),
      j ∈ low_card_indices_aux threshold cards b
        ↔ ∃ k, ∃ hk : k < cards.length, j = b + k + 1
            ∧ 0 < col_cardinality (cards.get ⟨k, hk⟩)
            ∧ col_cardinality (cards.get ⟨k, hk⟩) ≤ threshold := by
  intro cards
  induction cards with
  | nil =>
    intro b j
    simp [low_card_indices_aux]
  | cons c rest ih =>
    intro b j
    by_cases hc : 0 < col_cardinality c ∧ col_cardinality c ≤ threshold
    · simp only [low_card_indices_aux, if_pos hc, List.mem_cons, ih]
      constructor
      · rintro (rfl | ⟨k, hk, rfl, hcond⟩)
        · exact ⟨0, Nat.succ_pos _, rfl, hc⟩
        · exact ⟨k + 1, Nat.succ_lt_succ hk, by omega, hcond⟩
      · rintro ⟨k, hk, rfl, hcond⟩
        cases k with
        | zero => exact Or.inl rfl
        | succ k' =>
          exact Or.inr ⟨k', Nat.lt_of_succ_lt_succ hk, by omega, hcond⟩
    · simp only [low_card_indices_aux, if_neg hc, ih]
      constructor
      · rintro ⟨k, hk, rfl, hcond⟩
        exact ⟨k + 1, Nat.succ_lt_succ hk, by omega, hcond⟩
      · rintro ⟨k, hk, rfl, hcond⟩
        cases k with
        | zero => exact absurd hcond hc
        | succ k' =>
          exact ⟨k', Nat.lt_of_succ_lt_succ hk, by omega, hcond⟩

/-- C7: column `i` (0-based) is selected for enum mining — i.e. `i + 1`
appears in the selector list — iff its credited cardinality `c` satisfies
`0 < c ∧ c ≤ threshold`; a missing or unparseable cardinality is credited 0
by `col_cardinality` and hence excluded. -/
theorem low_cardinality_selected_iff (threshold : Nat)
    (cards : List (Option String)) (i : Nat) (hi : i < cards.length) :
    (i + 1) ∈ low_cardinality_column_indices threshold cards
      ↔ (0 < col_cardinality (cards.get ⟨i, hi⟩)
          ∧ col_cardinality (cards.get ⟨i, hi⟩) ≤ threshold) := by
  unfold low_cardinality_column_indices
  rw [mem_low_card_aux]
  constructor
  · rintro ⟨k, hk, hjk, hcond⟩
    have : k = i := by omega
    subst this
    exact hcond
  · intro hcond
    exact ⟨i, hi, by omega, hcond⟩

/-- Witness for `low_cardinality_selected_iff`: with threshold 3, a column
of cardinality exactly 3 is selected, one of cardinality 4 is not, and one
with unparseable cardinality is not. -/
theorem low_cardinality_selected_iff_witness :
    (0 : Nat) < 3
    ∧ ((0 + 1) ∈ low_cardinality_column_indices 3
          [some "3", some "4", some "x"]
        ↔ (0 < col_cardinality (some "3") ∧ col_cardinality (some "3") ≤ 3))
    ∧ ((1 + 1) ∉ low_cardinality_column_indices 3
          [some "3", some "4", some "x"])
    ∧ ((2 + 1) ∉ low_cardinality_column_indices 3
          [some "3", some "4", some "x"]) :=
  ⟨by decide,
    low_cardinality_selected_iff 3 [some "3", some "4", some "x"] 0
      (by decide),
    by decide, by decide⟩

/-! ### Schema assembly: properties map and required list,
schema.rs:275-432 and schema.rs:758-767 -/

/-- The per-column field definition fragment the claims consult: its
`type` list and `enum` list (an empty `enumList` models a field definition
without an `enum` key, since the code only inserts the key when the list is
nonempty, schema.rs:420-426). -/
structure FieldDef where
  typeList : List JVal
  enumList : List JVal
deriving DecidableEq, Repr

/-- Insert into a `serde_json::Map` with the `preserve_order` feature
(an `IndexMap`, per the spec's "required list = every column name, in
header order"): inserting an existing key overwrites its value in place,
a new key is appended. -/
def map_insert {β : Type} (m : List (String × β)) (k : String) (v : β) :
    List (String × β) :=
  if m.any (fun p => p.1 == k) then
    m.map (fun p => if p.1 == k then (k, v) else p)
  else
    m ++ [(k, v)]

/-- `serde_json::Map` lookup. -/
def lookup_kv {β : Type} (m : List (String × β)) (k : String) : Option β :=
  (m.find? (fun p => p.1 == k)).map Prod.snd

/-- The properties-map construction of `infer_schema_from_stats`
(schema.rs:275-430): one `properties_map.insert(header_string, field_def)`
per CSV column, in header order.  `cols` pairs each column's header string
with its assembled field definition. -/
def properties_map_of (cols : List (String × FieldDef)) :
    List (String × FieldDef) :=
  cols.foldl (fun m kv => map_insert m kv.1 kv.2) []

/-- Embedding of `get_required_fields` (schema.rs:758-767): every key of
the properties map, as a JSON string, in map order. -/
def get_required_fields (m : List (String × FieldDef)) : List JVal :=
  m.map (fun p => JVal.vStr p.1)

/-- C2 counterexample: two columns that share the name `a` collapse to one
`properties_map` entry (the second `insert` overwrites the first), so the
required list has 1 entry for an input with N = 2 columns. -/
theorem required_fields_dup_counterexample :
    (get_required_fields (properties_map_of
        [("a", ⟨[JVal.vStr "string"], []⟩),
         ("a", ⟨[JVal.vStr "integer"], []⟩)])).length ≠ 2 := by
  decide

lemma map_insert_new {β : Type} (m : List (String × β)) (k : String)
    (v : β) (hk : k ∉ m.map Prod.fst) : map_insert m k v = m ++ [(k, v)] := by
  unfold map_insert
  rw [if_neg]
  simp only [List.any_eq_true, beq_iff_eq, not_exists, not_and]
  intro p hp hpk
  exact hk (hpk ▸ List.mem_map_of_mem Prod.fst hp)

lemma properties_fold_nodup (cols : List (String × FieldDef)) :
    ∀ m : List (String × FieldDef),
      (∀ k, k ∈ cols.map Prod.fst → k ∉ m.map Prod.fst) →
      (cols.map Prod.fst).Nodup →
      cols.foldl (fun m kv => map_insert m kv.1 kv.2) m = m ++ cols := by
  induction cols with
  | nil => intro m _ _; simp
  | cons p rest ih =>
    intro m hdisj hnd
    simp only [List.foldl_cons]
    have hpnew : p.1 ∉ m.map Prod.fst :=
      hdisj p.1 (by simp)
    rw [map_insert_new m p.1 p.2 hpnew]
    have hnd' : (rest.map Prod.fst).Nodup := by
      simpa using hnd.of_cons
    have hp1 : p.1 ∉ rest.map Prod.fst := by
      have := hnd
      simp only [List.map_cons, List.nodup_cons] at this
      exact this.1
    have hdisj' : ∀ k, k ∈ rest.map Prod.fst →
        k ∉ (m ++ [(p.1, p.2)]).map Prod.fst := by
      intro k hk
      simp only [List.map_append, List.mem_append, List.map_cons,
        List.map_nil, List.mem_singleton]
      rintro (hkm | rfl)
      · exact hdisj k (by simp [hk]) hkm
      · exact hp1 hk
    rw [ih (m ++ [(p.1, p.2)]) hdisj' hnd']
    simp

/-- C2 (amended): when the N column names are pairwise distinct, the
required list is exactly every column name, in header order, with N
entries; this holds for arbitrary field definitions, in particular
independently of the columns' null counts.  (With duplicate column names
the map collapses them, see the counterexample.) -/
theorem required_fields_complete (cols : List (String × FieldDef))
    (hnd : (cols.map Prod.fst).Nodup) :
    get_required_fields (properties_map_of cols)
      = (cols.map Prod.fst).map JVal.vStr
    ∧ (get_required_fields (properties_map_of cols)).length = cols.length := by
  have hfold : properties_map_of cols = cols := by
    unfold properties_map_of
    have := properties_fold_nodup cols [] (by simp) hnd
    simpa using this
  constructor
  · rw [hfold]
    simp [get_required_fields]
  · rw [hfold]
    simp [get_required_fields]

/-- Witness for `required_fields_complete` on a 2-column input with
distinct names and differing null-related definitions. -/
theorem required_fields_complete_witness :
    ((([("a", (⟨[JVal.vStr "string"], []⟩ : FieldDef)),
        ("b", (⟨[JVal.vStr "integer", JVal.vStr "null"], []⟩ : FieldDef))]
          : List (String × FieldDef)).map Prod.fst).Nodup)
    ∧ (get_required_fields (properties_map_of
          [("a", ⟨[JVal.vStr "string"], []⟩),
           ("b", ⟨[JVal.vStr "integer", JVal.vStr "null"], []⟩)])
        = [JVal.vStr "a", JVal.vStr "b"]
      ∧ (get_required_fields (properties_map_of
          [("a", ⟨[JVal.vStr "string"], []⟩),
           ("b", ⟨[JVal.vStr "integer", JVal.vStr "null"], []⟩)])).length
        = 2) :=
  ⟨by decide,
    required_fields_complete
      [("a", ⟨[JVal.vStr "string"], []⟩),
       ("b", ⟨[JVal.vStr "integer", JVal.vStr "null"], []⟩)]
      (by decide)⟩

/-! ### Schema assembly: per-column type list, enum list and null
propagation, schema.rs:311-414 -/

/-- `atoi_simd::parse::<i64>`: optional sign then at least one ASCII digit,
within the `i64` range. -/
def int_parse (s : String) : Option Int :=
  let (sgn, cs) : Int × List Char := match s.data with
    | '-' :: rest => (-1, rest)
    | '+' :: rest => (1, rest)
    | l => (1, l)
  if cs ≠ [] ∧ cs.all Char.isDigit then
    let v : Nat := cs.foldl (fun n c => n * 10 + (c.toNat - 48)) 0
    let iv : Int := sgn * v
    if -(2 ^ 63) ≤ iv ∧ iv < 2 ^ 63 then some iv else none
  else none

/-- The `match col_type` of `infer_schema_from_stats` (schema.rs:311-402)
restricted to what it contributes to the column's `type` list and `enum`
list.  `uniq` is `unique_values_map.get(&header_string)`.  A `String`
column takes its unique values verbatim; an `Integer` column parses each
unique value with `atoi_simd::parse::<i64>(..).unwrap()` — the `none`
result models that `unwrap` panicking on an unparseable profile value.
`Float`, `NULL`, `Date`, `DateTime` and unrecognized types attach no enum.
-/
def infer_field_type_enum (col_type : String)
    (uniq : Option (List String)) : Option (List JVal × List JVal) :=
  match col_type with
  | "String" =>
    some ([JVal.vStr "string"], (uniq.getD []).map JVal.vStr)
  | "Integer" =>
    match (uniq.getD []).mapM int_parse with
    | some ns => some ([JVal.vStr "integer"], ns.map JVal.vInt)
    | none => none
  | "Float" => some ([JVal.vStr "number"], [])
  | "NULL" => some ([JVal.vStr "null"], [])
  | "Date" => some ([JVal.vStr "string"], [])
  | "DateTime" => some ([JVal.vStr "string"], [])
  | _ => some ([JVal.vStr "string"], [])

/-- schema.rs:404-408 — append `"null"` to the type list when the column
has nulls and the list does not already contain it. -/
def append_null_type (null_count : Nat) (tl : List JVal) : List JVal :=
  if 0 < null_count ∧ JVal.vStr "null" ∉ tl then tl ++ [JVal.vStr "null"]
  else tl

/-- schema.rs:410-414 — append the JSON `null` sentinel to a nonempty enum
list when the column has nulls. -/
def append_null_enum (null_count : Nat) (el : List JVal) : List JVal :=
  if 0 < null_count ∧ el ≠ [] then el ++ [JVal.vNull] else el

lemma append_null_type_idem (null_count : Nat) (tl : List JVal) :
    append_null_type null_count (append_null_type null_count tl)
      = append_null_type null_count tl := by
  unfold append_null_type
  by_cases h : 0 < null_count ∧ JVal.vStr "null" ∉ tl
  · rw [if_pos h, if_neg]
    rintro ⟨-, habs⟩
    exact habs (by simp)
  · rw [if_neg h, if_neg h]

lemma infer_tl_count (col_type : String) (uniq : Option (List String))
    (tl el : List JVal)
    (hmk : infer_field_type_enum col_type uniq = some (tl, el)) :
    tl.count (JVal.vStr "null") = (if col_type = "NULL" then 1 else 0) := by
  unfold infer_field_type_enum at hmk
  split at hmk <;>
    first
    | (injection hmk with h1
       cases h1
       simp_all)
    | (rename_i heq
       split at hmk <;>
         first
         | (injection hmk with h1; cases h1; simp_all)
         | exact absurd hmk (by simp))

lemma infer_el_no_null (col_type : String) (uniq : Option (List String))
    (tl el : List JVal)
    (hmk : infer_field_type_enum col_type uniq = some (tl, el)) :
    JVal.vNull ∉ el := by
  unfold infer_field_type_enum at hmk
  split at hmk
  · injection hmk with h1
    cases h1
    intro hmem
    rcases List.mem_map.mp hmem with ⟨x, -, hx⟩
    cases hx
  · split at hmk
    · injection hmk with h1
      cases h1
      intro hmem
      rcases List.mem_map.mp hmem with ⟨x, -, hx⟩
      cases hx
    · exact absurd hmk (by simp)
  all_goals
    (injection hmk with h1
     cases h1
     simp)

/-- C4: for any column profile whose type/enum lists the assembler
produced, if the null count is positive then (a) the type list after the
null rule contains `"null"` exactly once, (b) running the type-list null
rule a second time changes nothing, and (c) if the enum list is nonempty,
the enum list after the null rule contains exactly one null sentinel. -/
theorem null_propagation (col_type : String) (uniq : Option (List String))
    (null_count : Nat) (tl el : List JVal)
    (hmk : infer_field_type_enum col_type uniq = some (tl, el))
    (hnc : 0 < null_count) :
    (append_null_type null_count tl).count (JVal.vStr "null") = 1
    ∧ append_null_type null_count (append_null_type null_count tl)
        = append_null_type null_count tl
    ∧ (el ≠ [] →
        (append_null_enum null_count el).count JVal.vNull = 1) := by
  refine ⟨?_, append_null_type_idem null_count tl, ?_⟩
  · have hcnt := infer_tl_count col_type uniq tl el hmk
    by_cases hct : col_type = "NULL"
    · rw [if_pos hct] at hcnt
      have hmem : JVal.vStr "null" ∈ tl := by
        rw [← List.count_pos_iff, hcnt]
        exact Nat.one_pos
      unfold append_null_type
      rw [if_neg (by rintro ⟨-, habs⟩; exact habs hmem)]
      exact hcnt
    · rw [if_neg hct] at hcnt
      have hmem : JVal.vStr "null" ∉ tl := by
        rw [← List.count_pos_iff, hcnt]
        simp
      unfold append_null_type
      rw [if_pos ⟨hnc, hmem⟩]
      rw [List.count_append, hcnt]
      simp
  · intro hel
    have hnomem := infer_el_no_null col_type uniq tl el hmk
    unfold append_null_enum
    rw [if_pos ⟨hnc, hel⟩, List.count_append,
      List.count_eq_zero.mpr hnomem]
    simp

/-- Witness for `null_propagation`: a `String` column with one enum value
and a positive null count. -/
theorem null_propagation_witness :
    infer_field_type_enum "String" (some ["y"])
      = some ([JVal.vStr "string"], [JVal.vStr "y"])
    ∧ 0 < 3
    ∧ ((append_null_type 3 [JVal.vStr "string"]).count (JVal.vStr "null")
        = 1
      ∧ append_null_type 3 (append_null_type 3 [JVal.vStr "string"])
          = append_null_type 3 [JVal.vStr "string"]
      ∧ ([JVal.vStr "y"] ≠ ([] : List JVal) →
          (append_null_enum 3 [JVal.vStr "y"]).count JVal.vNull = 1)) :=
  ⟨by decide, by decide,
    null_propagation "String" (some ["y"]) 3 [JVal.vStr "string"]
      [JVal.vStr "y"] (by decide) (by decide)⟩

/-! ### Pattern synthesis, schema.rs:770-855 -/

/-- Embedding of `should_emit_pattern_constraint` (schema.rs:850-855): the
field has `"string"` in its type list and no enum key. -/
def should_emit_pattern_constraint (fd : FieldDef) : Bool :=
  decide (JVal.vStr "string" ∈ fd.typeList) && fd.enumList.isEmpty

/-- First-appearance deduplication: the distinct values of a list, keeping
the first occurrence of each, with `keys` the values already recorded. -/
def new_firsts (keys : List String) : List String → List String
  | [] => []
  | v :: rest =>
    if v ∈ keys then new_firsts keys rest
    else v :: new_firsts (v :: keys) rest

/-- The distinct raw values observed in column `j` over all scanned rows
(the per-column `AHashSet` of schema.rs:798-824, as a list). -/
def column_values (rows : List (List String)) (j : Nat) : List String :=
  new_firsts [] (rows.filterMap (fun r => r.get? j))

/-- Embedding of `generate_string_patterns` (schema.rs:770-847).  `sel` is
the resolved 0-based column selection, `build_regex` abstracts the external
grex `RegExpBuilder` pipeline (repetition folding with minimum run 2).  If
the selection is empty or covers every header column the function returns
an empty pattern map before scanning any row (schema.rs:788-795); otherwise
each selected column whose field definition has type `"string"` and no enum
maps to the regex built from its distinct observed values. -/
def generate_string_patterns (build_regex : List String → String)
    (headers : List String) (sel : List Nat)
    (props : List (String × FieldDef)) (rows : List (List String)) :
    List (String × String) :=
  if sel.length = 0 ∨ sel.length = headers.length then []
  else
    sel.filterMap (fun j =>
      match headers.get? j with
      | some h =>
        match lookup_kv props h with
        | some fd =>
          if should_emit_pattern_constraint fd then
            some (h, build_regex (column_values rows j))
          else none
        | none => none
      | none => none)

/-- C8: a selection resolving to zero columns or to all columns of the
header yields an empty pattern mapping, for every input. -/
theorem pattern_guard (build_regex : List String → String)
    (headers : List String) (sel : List Nat)
    (props : List (String × FieldDef)) (rows : List (List String))
    (h : sel.length = 0 ∨ sel.length = headers.length) :
    generate_string_patterns build_regex headers sel props rows = [] := by
  unfold generate_string_patterns
  rw [if_pos h]

/-- Witness for `pattern_guard`: selecting both columns of a 2-column
header returns no patterns even though a string column with data exists. -/
theorem pattern_guard_witness :
    (([0, 1] : List Nat).length = 0 ∨ ([0, 1] : List Nat).length
        = (["a", "b"] : List String).length)
    ∧ generate_string_patterns (fun _ => "re") ["a", "b"] [0, 1]
        [("a", ⟨[JVal.vStr "string"], []⟩)] [["x", "y"]] = [] :=
  ⟨Or.inr rfl,
    pattern_guard (fun _ => "re") ["a", "b"] [0, 1]
      [("a", ⟨[JVal.vStr "string"], []⟩)] [["x", "y"]] (Or.inr rfl)⟩

/-! ### Pseudonymisation, pseudo.rs:96-197 -/

/-- One step of `lookup_kv` on a cons cell. -/
lemma lookup_kv_cons {β : Type} (p : String × β) (m : List (String × β))
    (k : String) :
    lookup_kv (p :: m) k = if p.1 == k then some p.2 else lookup_kv m k := by
  by_cases h : p.1 == k <;> simp [lookup_kv, List.find?_cons, h]

lemma lookup_kv_nil {β : Type} (k : String) :
    lookup_kv ([] : List (String × β)) k = none := rfl

lemma lookup_kv_some_append {β : Type} (m l : List (String × β))
    (k : String) (s : β) (h : lookup_kv m k = some s) :
    lookup_kv (m ++ l) k = some s := by
  induction m with
  | nil => rw [lookup_kv_nil] at h; cases h
  | cons p rest ih =>
    rw [lookup_kv_cons] at h
    rw [List.cons_append, lookup_kv_cons]
    by_cases hp : p.1 == k
    · rw [if_pos hp] at h ⊢; exact h
    · rw [if_neg hp] at h ⊢; exact ih h

lemma lookup_kv_none_append {β : Type} (m : List (String × β))
    (k v : String) (s : β) (h : lookup_kv m k = none) :
    lookup_kv (m ++ [(v, s)]) k = if v == k then some s else none := by
  induction m with
  | nil => simp [lookup_kv_cons, lookup_kv_nil]
  | cons p rest ih =>
    rw [lookup_kv_cons] at h
    rw [List.cons_append, lookup_kv_cons]
    by_cases hp : p.1 == k
    · rw [if_pos hp] at h; cases h
    · rw [if_neg hp] at h ⊢; exact ih h

lemma lookup_kv_some_mem {β : Type} (m : List (String × β)) (k : String)
    (s : β) (h : lookup_kv m k = some s) : k ∈ m.map Prod.fst := by
  induction m with
  | nil => rw [lookup_kv_nil] at h; cases h
  | cons p rest ih =>
    rw [lookup_kv_cons] at h
    simp only [List.map_cons, List.mem_cons]
    by_cases hp : p.1 == k
    · exact Or.inl (beq_iff_eq.mp hp).symm
    · right
      rw [if_neg hp] at h
      exact ih h

lemma lookup_kv_none_not_mem {β : Type} (m : List (String × β))
    (k : String) (h : lookup_kv m k = none) : k ∉ m.map Prod.fst := by
  induction m with
  | nil => simp
  | cons p rest ih =>
    rw [lookup_kv_cons] at h
    by_cases hp : p.1 == k
    · rw [if_pos hp] at h; cases h
    · rw [if_neg hp] at h
      simp only [List.map_cons, List.mem_cons]
      rintro (rfl | hmem)
      · exact hp (beq_iff_eq.mpr rfl)
      · exact ih h hmem

/-- `new_firsts` only consults `keys` through membership. -/
lemma new_firsts_congr : ∀ (l keys₁ keys₂ : List String),
    (∀ x, x ∈ keys₁ ↔ x ∈ keys₂) → new_firsts keys₁ l = new_firsts keys₂ l := by
  intro l
  induction l with
  | nil => intro _ _ _; rfl
  | cons v rest ih =>
    intro k₁ k₂ hcong
    unfold new_firsts
    by_cases hv : v ∈ k₁
    · rw [if_pos hv, if_pos ((hcong v).mp hv)]
      exact ih k₁ k₂ hcong
    · rw [if_neg hv, if_neg (fun h => hv ((hcong v).mpr h))]
      have : ∀ x, x ∈ v :: k₁ ↔ x ∈ v :: k₂ := by
        intro x
        simp only [List.mem_cons]
        exact or_congr Iff.rfl (hcong x)
      rw [ih (v :: k₁) (v :: k₂) this]

/-- Rank of the first occurrence of `v` in a list (0-based). -/
def first_rank (v : String) : List String → Nat
  | [] => 0
  | w :: rest => if w = v then 0 else first_rank v rest + 1

/-- The per-row loop of `pseudo::run` (pseudo.rs:170-194, the general
format-string branch; the `"{}"` fast path of pseudo.rs:132-153 is the same
loop with `fmtfn` the decimal rendering).  `seen` is the `values` hash map
(insertion-ordered association list), `counter` the running `u64` counter.
A new value is assigned `fmtfn counter`; the counter is advanced with
`overflowing_add` (wrapping `% 2 ^ 64`) and an overflow aborts the run with
an error before the row is written. -/
def pseudo_loop (fmtfn : Nat → String) (increment : Nat) :
    List String → List (String × String) → Nat → Except Unit (List String)
  | [], _, _ => Except.ok []
  | v :: rest, seen, counter =>
    match lookup_kv seen v with
    | some s =>
      match pseudo_loop fmtfn increment rest seen counter with
      | Except.ok out => Except.ok (s :: out)
      | Except.error e => Except.error e
    | none =>
      let curr_counter := counter
      let next := (counter + increment) % 2 ^ 64
      if 2 ^ 64 ≤ counter + increment then Except.error ()
      else
        match pseudo_loop fmtfn increment rest
            (seen ++ [(v, fmtfn curr_counter)]) next with
        | Except.ok out => Except.ok (fmtfn curr_counter :: out)
        | Except.error e => Except.error e

/-- Embedding of `pseudo::run`'s replacement pipeline: `vals` is the
selected column's value per row, the result the replacement per row. -/
def pseudo_run (fmtfn : Nat → String) (start increment : Nat)
    (vals : List String) : Except Unit (List String) :=
  pseudo_loop fmtfn increment vals [] start

/-- Overflow-free reference rendition of the same loop. -/
def pseudo_spec (fmtfn : Nat → String) (increment : Nat) :
    List String → List (String × String) → Nat → List String
  | [], _, _ => []
  | v :: rest, seen, counter =>
    match lookup_kv seen v with
    | some s => s :: pseudo_spec fmtfn increment rest seen counter
    | none =>
      fmtfn counter ::
        pseudo_spec fmtfn increment rest (seen ++ [(v, fmtfn counter)])
          (counter + increment)

/-- A successful `pseudo_loop` run never wraps, so it agrees with
`pseudo_spec`. -/
lemma pseudo_loop_eq_spec (fmtfn : Nat → String) (increment : Nat) :
    ∀ (vals : List String) (seen : List (String × String)) (counter : Nat)
      (out : List String),
      pseudo_loop fmtfn increment vals seen counter = Except.ok out →
      out = pseudo_spec fmtfn increment vals seen counter := by
  intro vals
  induction vals with
  | nil =>
    intro seen counter out h
    injection h with h
    exact h.symm
  | cons v rest ih =>
    intro seen counter out h
    unfold pseudo_loop at h
    unfold pseudo_spec
    cases hlv : lookup_kv seen v with
    | some s =>
      rw [hlv] at h
      simp only at h
      cases hrec : pseudo_loop fmtfn increment rest seen counter with
      | ok out' =>
        rw [hrec] at h
        injection h with h
        rw [← h, ih seen counter out' hrec]
      | error e =>
        rw [hrec] at h
        cases h
    | none =>
      rw [hlv] at h
      simp only at h
      by_cases hovf : 2 ^ 64 ≤ counter + increment
      · rw [if_pos hovf] at h
        cases h
      · rw [if_neg hovf] at h
        have hmod : (counter + increment) % 2 ^ 64 = counter + increment :=
          Nat.mod_eq_of_lt (Nat.lt_of_not_le hovf)
        rw [hmod] at h
        cases hrec : pseudo_loop fmtfn increment rest
            (seen ++ [(v, fmtfn counter)]) (counter + increment) with
        | ok out' =>
          rw [hrec] at h
          injection h with h
          rw [← h, ih _ _ out' hrec]
        | error e =>
          rw [hrec] at h
          cases h

lemma pseudo_spec_length (fmtfn : Nat → String) (increment : Nat) :
    ∀ (vals : List String) (seen : List (String × String)) (counter : Nat),
      (pseudo_spec fmtfn increment vals seen counter).length
        = vals.length := by
  intro vals
  induction vals with
  | nil => intro _ _; rfl
  | cons v rest ih =>
    intro seen counter
    unfold pseudo_spec
    cases hlv : lookup_kv seen v <;>
      simp [ih]

lemma new_firsts_cons_mem (keys : List String) (v : String)
    (l : List String) (h : v ∈ keys) :
    new_firsts keys (v :: l) = new_firsts keys l := by
  simp [new_firsts, h]

lemma new_firsts_cons_not_mem (keys : List String) (v : String)
    (l : List String) (h : v ∉ keys) :
    new_firsts keys (v :: l) = v :: new_firsts (v :: keys) l := by
  simp [new_firsts, h]

lemma first_rank_cons_self (v : String) (l : List String) :
    first_rank v (v :: l) = 0 := by
  simp [first_rank]

lemma first_rank_cons_ne (v w : String) (l : List String) (h : w ≠ v) :
    first_rank v (w :: l) = first_rank v l + 1 := by
  simp [first_rank, h]

/-- Row `i` of the reference loop: the value's recorded replacement if it
was already seen, otherwise `fmtfn` of the counter at its first appearance,
which is `counter + rank * increment` with `rank` its 0-based rank among
the not-yet-seen distinct values. -/
lemma pseudo_spec_get (fmtfn : Nat → String) (increment : Nat) :
    ∀ (vals : List String) (seen : List (String × String)) (counter : Nat)
      (i : Nat) (hi : i < vals.length),
      (pseudo_spec fmtfn increment vals seen counter)[i]?
        = some ((lookup_kv seen vals[i]).getD
            (fmtfn (counter +
              first_rank vals[i] (new_firsts (seen.map Prod.fst) vals)
                * increment))) := by
  intro vals
  induction vals with
  | nil =>
    intro seen counter i hi
    exact absurd hi (by simp)
  | cons v rest ih =>
    intro seen counter i hi
    cases i with
    | zero =>
      simp only [List.getElem_cons_zero]
      unfold pseudo_spec
      cases hlv : lookup_kv seen v with
      | some s => simp [hlv]
      | none =>
        have hvnot : v ∉ seen.map Prod.fst :=
          lookup_kv_none_not_mem seen v hlv
        rw [new_firsts_cons_not_mem _ _ _ hvnot, first_rank_cons_self]
        simp [hlv]
    | succ i' =>
      have hi' : i' < rest.length := Nat.lt_of_succ_lt_succ hi
      simp only [List.getElem_cons_succ]
      unfold pseudo_spec
      cases hlv : lookup_kv seen v with
      | some s =>
        have hvmem : v ∈ seen.map Prod.fst :=
          lookup_kv_some_mem seen v s hlv
        simp only [List.getElem?_cons_succ]
        rw [ih seen counter i' hi', new_firsts_cons_mem _ _ _ hvmem]
      | none =>
        have hvnot : v ∉ seen.map Prod.fst :=
          lookup_kv_none_not_mem seen v hlv
        simp only [List.getElem?_cons_succ]
        rw [ih (seen ++ [(v, fmtfn counter)]) (counter + increment) i' hi']
        have hkeys : (seen ++ [(v, fmtfn counter)]).map Prod.fst
            = seen.map Prod.fst ++ [v] := by simp
        have hcongr : new_firsts (seen.map Prod.fst ++ [v]) rest
            = new_firsts (v :: seen.map Prod.fst) rest := by
          refine new_firsts_congr rest _ _ ?_
          intro x
          constructor
          · intro hx
            rcases List.mem_append.mp hx with hx | hx
            · exact List.mem_cons_of_mem v hx
            · rw [List.mem_singleton] at hx
              exact hx ▸ List.mem_cons_self v _
          · intro hx
            rcases List.mem_cons.mp hx with hx | hx
            · exact List.mem_append.mpr (Or.inr (hx ▸ List.mem_singleton_self x))
            · exact List.mem_append.mpr (Or.inl hx)
        rw [hkeys, hcongr, new_firsts_cons_not_mem _ _ _ hvnot]
        cases hlw : lookup_kv seen rest[i'] with
        | some s =>
          rw [lookup_kv_some_append seen [(v, fmtfn counter)] rest[i'] s hlw]
          simp
        | none =>
          rw [lookup_kv_none_append seen rest[i'] v (fmtfn counter) hlw]
          by_cases hvw : v = rest[i']
          · rw [if_pos (beq_iff_eq.mpr hvw), ← hvw, first_rank_cons_self]
            simp
          · rw [if_neg (by simpa using hvw),
              first_rank_cons_ne rest[i'] v _ hvw]
            simp only [Option.getD_none, Option.some.injEq]
            congr 1
            ring

/-- C10: on a successful pseudonymisation run (no u64 overflow), the output
has one replacement per row; row `i`'s replacement is the format string
applied to `start + k * increment` where `k` is the 0-based rank of the
row's selected-column value in order of first appearance; and byte-identical
values always receive the identical replacement. -/
theorem pseudo_identifiers (fmtfn : Nat → String) (start increment : Nat)
    (vals out : List String)
    (hok : pseudo_run fmtfn start increment vals = Except.ok out) :
    out.length = vals.length
    ∧ (∀ (i : Nat) (hi : i < vals.length),
        out[i]? = some (fmtfn
          (start + first_rank vals[i] (new_firsts [] vals) * increment)))
    ∧ (∀ (i j : Nat) (hi : i < vals.length) (hj : j < vals.length),
        vals[i] = vals[j] → out[i]? = out[j]?) := by
  have hspec : out = pseudo_spec fmtfn increment vals [] start :=
    pseudo_loop_eq_spec fmtfn increment vals [] start out hok
  subst hspec
  have hget : ∀ (i : Nat) (hi : i < vals.length),
      (pseudo_spec fmtfn increment vals [] start)[i]?
        = some (fmtfn
            (start + first_rank vals[i] (new_firsts [] vals) * increment)) := by
    intro i hi
    have h := pseudo_spec_get fmtfn increment vals [] start i hi
    simpa [lookup_kv_nil] using h
  refine ⟨pseudo_spec_length fmtfn increment vals [] start, hget, ?_⟩
  intro i j hi hj hval
  rw [hget i hi, hget j hj, hval]

/-- Witness for `pseudo_identifiers`: the USAGE example run with
`--start 1000 --increment 5` on the `Name` column values
Mary, John, Mary, Sue — John gets 1005 in both of its rows. -/
theorem pseudo_identifiers_witness :
    pseudo_run (fun n => toString n) 1000 5 ["Mary", "John", "Mary", "Sue"]
      = Except.ok ["1000", "1005", "1000", "1010"]
    ∧ ((["1000", "1005", "1000", "1010"] : List String).length
        = (["Mary", "John", "Mary", "Sue"] : List String).length
      ∧ (∀ (i : Nat)
          (hi : i < (["Mary", "John", "Mary", "Sue"] : List String).length),
          (["1000", "1005", "1000", "1010"] : List String)[i]?
            = some ((fun n => toString n)
              (1000 + first_rank (["Mary", "John", "Mary", "Sue"] :
                  List String)[i]
                (new_firsts [] ["Mary", "John", "Mary", "Sue"]) * 5)))
      ∧ (∀ (i j : Nat)
          (hi : i < (["Mary", "John", "Mary", "Sue"] : List String).length)
          (hj : j < (["Mary", "John", "Mary", "Sue"] : List String).length),
          (["Mary", "John", "Mary", "Sue"] : List String)[i]
              = (["Mary", "John", "Mary", "Sue"] : List String)[j] →
            (["1000", "1005", "1000", "1010"] : List String)[i]?
              = (["1000", "1005", "1000", "1010"] : List String)[j]?)) :=
  ⟨by rfl,
    pseudo_identifiers (fun n => toString n) 1000 5
      ["Mary", "John", "Mary", "Sue"] ["1000", "1005", "1000", "1010"]
      (by rfl)⟩

end Qsv
